import Mathlib

set_option maxRecDepth 8192

/-!
Shallow embedding of the workflow-execution backend (executor, evaluation,
context extraction, remote-model client) and verification of its stated
properties.

Conventions used throughout:
* Python strings are Lean `String`s; `str.strip()` is `pystrip` (ASCII
  whitespace class of `str.isspace`; exotic Unicode space categories are
  not modelled — no input exercised here contains them).
* Machine floats of the source are modelled as `ℚ`.
* The remote chat-completion endpoint and the regex engine are external
  collaborators; they enter as an explicit environment (`RmEnv`), indexed
  by the number of remote calls made so far.
* `json.loads` is modelled by `json_loads`, a recursive-descent parser for
  the grammar accepted by Python's json module (objects, arrays, strings
  with escapes, numbers, true/false/null plus the NaN/Infinity extensions,
  whitespace = space, tab, newline, carriage return).
-/

/-- Character class of Python `str.strip()` (ASCII/Latin-1 portion of
`str.isspace`: TAB..CR, space, FS..US, NEL, NBSP). -/
def pyIsSpace (c : Char) : Bool :=
  decide (9 ≤ c.toNat ∧ c.toNat ≤ 13) || decide (c.toNat = 32) ||
  decide (28 ≤ c.toNat ∧ c.toNat ≤ 31) || decide (c.toNat = 133) || decide (c.toNat = 160)

/-- Strip leading and trailing whitespace from a character list
(Python `str.strip()` at the list level). -/
def stripList (l : List Char) : List Char :=
  ((l.dropWhile pyIsSpace).reverse.dropWhile pyIsSpace).reverse

/-- Python `str.strip()`. -/
def pystrip (s : String) : String :=
  String.mk (stripList s.toList)

/-- Python's `in` operator on strings (substring containment). -/
def strContainsSub (s pat : String) : Bool :=
  decide (pat.toList <:+: s.toList)

/-- Truthiness of an optional string (Python `if x:` for `x : str | None`). -/
def optTruthy (o : Option String) : Bool :=
  !(o.getD "" == "")

/- ------------------------------------------------------------------ -/
/- JSON (model of Python's json.loads)                                 -/
/- ------------------------------------------------------------------ -/

/-- JSON whitespace skipped by Python's json module between tokens. -/
def jsonWs (c : Char) : Bool :=
  c == ' ' || c == '\t' || c == '\n' || c == '\r'

/-- Skip JSON whitespace. -/
def skipWs (l : List Char) : List Char :=
  l.dropWhile jsonWs

/-- Hexadecimal digit test for \uXXXX escapes. -/
def isHexDig (c : Char) : Bool :=
  c.isDigit || (decide ('a' ≤ c) && decide (c ≤ 'f')) || (decide ('A' ≤ c) && decide (c ≤ 'F'))

/-- Value of a hexadecimal digit. -/
def hexVal (c : Char) : Nat :=
  if c.isDigit then c.toNat - 48
  else if decide ('a' ≤ c) && decide (c ≤ 'f') then c.toNat - 87
  else c.toNat - 55

/-- Simple escape characters of JSON strings. -/
def escChar (c : Char) : Option Char :=
  if c = '"' then some '"'
  else if c = '\\' then some '\\'
  else if c = '/' then some '/'
  else if c = 'b' then some (Char.ofNat 8)
  else if c = 'f' then some (Char.ofNat 12)
  else if c = 'n' then some '\n'
  else if c = 'r' then some '\r'
  else if c = 't' then some '\t'
  else none

/-- Parse the body of a JSON string (after the opening quote), returning the
decoded characters and the remaining input.  Unescaped control characters are
rejected (Python's strict mode); `\uXXXX` escapes decode via `Char.ofNat`
(surrogate-pair recombination of CPython is not modelled; no input here uses
surrogates). -/
def parseStrChars : List Char → Option (List Char × List Char)
  | [] => none
  | c :: r =>
    if c = '"' then some ([], r)
    else if c = '\\' then
      match r with
      | [] => none
      | e :: r2 =>
        if e = 'u' then
          match r2 with
          | a :: b :: c2 :: d :: r3 =>
            if isHexDig a && isHexDig b && isHexDig c2 && isHexDig d then
              (parseStrChars r3).map fun p =>
                (Char.ofNat (hexVal a * 4096 + hexVal b * 256 + hexVal c2 * 16 + hexVal d) :: p.1, p.2)
            else none
          | _ => none
        else
          match escChar e with
          | some ec => (parseStrChars r2).map fun p => (ec :: p.1, p.2)
          | none => none
    else if c.toNat < 32 then none
    else (parseStrChars r).map fun p => (c :: p.1, p.2)

/-- Take a maximal run of ASCII digits. -/
def takeDigits (l : List Char) : List Char × List Char :=
  (l.takeWhile Char.isDigit, l.dropWhile Char.isDigit)

/-- Integer part of the json NUMBER regex: `0 | [1-9][0-9]*` (returns the
matched characters and the rest, or none). -/
def parseIntPart : List Char → Option (List Char × List Char)
  | [] => none
  | c :: r =>
    if c = '0' then some (['0'], r)
    else if c.isDigit then
      let p := takeDigits r
      some (c :: p.1, p.2)
    else none

/-- Optional fraction part `(\.[0-9]+)?`; consumes nothing when it cannot
match in full. -/
def parseFracPart (l : List Char) : List Char × List Char :=
  match l with
  | c :: r =>
    if c = '.' then
      match r with
      | d :: _ =>
        if d.isDigit then
          let p := takeDigits r
          ('.' :: p.1, p.2)
        else ([], l)
      | [] => ([], l)
    else ([], l)
  | [] => ([], l)

/-- Optional exponent part `([eE][+-]?[0-9]+)?`; consumes nothing when it
cannot match in full. -/
def parseExpPart (l : List Char) : List Char × List Char :=
  match l with
  | c :: r =>
    if c = 'e' ∨ c = 'E' then
      let sr : List Char × List Char :=
        match r with
        | s :: r3 => if s = '+' ∨ s = '-' then ([s], r3) else ([], r)
        | [] => ([], r)
      match sr.2 with
      | d :: _ =>
        if d.isDigit then
          let p := takeDigits sr.2
          (c :: (sr.1 ++ p.1), p.2)
        else ([], l)
      | [] => ([], l)
    else ([], l)
  | [] => ([], l)

/-- The json NUMBER regex `(-?(?:0|[1-9]\d*))(\.\d+)?([eE][-+]?\d+)?`,
returning the matched literal and the rest. -/
def parseNumber (l : List Char) : Option (List Char × List Char) :=
  match l with
  | c :: r =>
    if c = '-' then
      match parseIntPart r with
      | some (ip, r2) =>
        let fp := parseFracPart r2
        let ep := parseExpPart fp.2
        some ('-' :: (ip ++ fp.1 ++ ep.1), ep.2)
      | none => none
    else
      match parseIntPart l with
      | some (ip, r2) =>
        let fp := parseFracPart r2
        let ep := parseExpPart fp.2
        some (ip ++ fp.1 ++ ep.1, ep.2)
      | none => none
  | [] => none

/-- Drop a literal off the front of the input, or fail. -/
def dropLit : List Char → List Char → Option (List Char)
  | [], l => some l
  | _ :: _, [] => none
  | c :: cs, x :: xs => if c = x then dropLit cs xs else none

/-- JSON values as produced by `json.loads`.  Numbers keep their matched
literal (enough to decide Python truthiness; exact float value is never
needed by the code under verification). -/
inductive Jv where
  | jnull : Jv
  | jbool : Bool → Jv
  | jnum : List Char → Jv
  | jstr : String → Jv
  | jarr : List Jv → Jv
  | jobj : List (String × Jv) → Jv

mutual

/-- Parse one JSON value (fuelled recursive descent; each step of fuel
consumes at least one input character, so `length + 2` fuel always
suffices).  Branch order follows CPython's scanner. -/
def parseValue : Nat → List Char → Option (Jv × List Char)
  | 0, _ => none
  | Nat.succ fuel, l =>
    match l with
    | [] => none
    | c :: r =>
      if c = '"' then (parseStrChars r).map fun p => (Jv.jstr (String.mk p.1), p.2)
      else if c = '{' then (parseObjectBody fuel r).map fun p => (Jv.jobj p.1, p.2)
      else if c = '[' then (parseArrayBody fuel r).map fun p => (Jv.jarr p.1, p.2)
      else
        match dropLit "null".toList l with
        | some r2 => some (Jv.jnull, r2)
        | none =>
          match dropLit "true".toList l with
          | some r2 => some (Jv.jbool true, r2)
          | none =>
            match dropLit "false".toList l with
            | some r2 => some (Jv.jbool false, r2)
            | none =>
              match parseNumber l with
              | some (lit, r2) => some (Jv.jnum lit, r2)
              | none =>
                match dropLit "NaN".toList l with
                | some r2 => some (Jv.jnum "NaN".toList, r2)
                | none =>
                  match dropLit "Infinity".toList l with
                  | some r2 => some (Jv.jnum "Infinity".toList, r2)
                  | none =>
                    match dropLit "-Infinity".toList l with
                    | some r2 => some (Jv.jnum "-Infinity".toList, r2)
                    | none => none

/-- Parse an object body (input begins just after `{`). -/
def parseObjectBody : Nat → List Char → Option (List (String × Jv) × List Char)
  | 0, _ => none
  | Nat.succ fuel, l =>
    match skipWs l with
    | [] => none
    | c :: r =>
      if c = '}' then some ([], r)
      else if c = '"' then
        match parseStrChars r with
        | some (k, r2) => parseMemberTail fuel [] (String.mk k) r2
        | none => none
      else none

/-- Parse `ws : ws value ws` after an object key, then `}` or `, ws "key"`
and loop.  `acc` holds the members parsed so far in order. -/
def parseMemberTail : Nat → List (String × Jv) → String → List Char → Option (List (String × Jv) × List Char)
  | 0, _, _, _ => none
  | Nat.succ fuel, acc, key, l =>
    match skipWs l with
    | [] => none
    | c :: r =>
      if c = ':' then
        match parseValue fuel (skipWs r) with
        | none => none
        | some (v, r2) =>
          match skipWs r2 with
          | [] => none
          | c2 :: r3 =>
            if c2 = '}' then some (acc ++ [(key, v)], r3)
            else if c2 = ',' then
              match skipWs r3 with
              | [] => none
              | c3 :: r4 =>
                if c3 = '"' then
                  match parseStrChars r4 with
                  | some (k2, r5) => parseMemberTail fuel (acc ++ [(key, v)]) (String.mk k2) r5
                  | none => none
                else none
            else none
      else none

/-- Parse an array body (input begins just after `[`). -/
def parseArrayBody : Nat → List Char → Option (List Jv × List Char)
  | 0, _ => none
  | Nat.succ fuel, l =>
    match skipWs l with
    | [] => none
    | c :: r =>
      if c = ']' then some ([], r)
      else
        match parseValue fuel (skipWs l) with
        | some (v, r2) => parseItemTail fuel [v] r2
        | none => none

/-- Parse `ws` then `]` or `, ws value` after an array item, looping. -/
def parseItemTail : Nat → List Jv → List Char → Option (List Jv × List Char)
  | 0, _, _ => none
  | Nat.succ fuel, acc, l =>
    match skipWs l with
    | [] => none
    | c :: r =>
      if c = ']' then some (acc, r)
      else if c = ',' then
        match parseValue fuel (skipWs r) with
        | some (v, r2) => parseItemTail fuel (acc ++ [v]) r2
        | none => none
      else none

end

/-- Model of `json.loads`: whole input must be exactly one JSON value with
optional surrounding whitespace; returns the value on success. -/
def json_loads (s : String) : Option Jv :=
  match parseValue (s.length + 2) (skipWs s.toList) with
  | some (v, rest) => if (skipWs rest).isEmpty then some v else none
  | none => none

/-- Does `json.loads` succeed on this string? -/
def jsonOk (s : String) : Bool :=
  (json_loads s).isSome

/-- Is the mantissa of a numeric literal zero (decides Python float/int
truthiness of a parsed JSON number; NaN and Infinity have no digits and are
truthy). -/
def numIsZero (lit : List Char) : Bool :=
  let mant := lit.takeWhile fun c => !(c == 'e' || c == 'E')
  mant.any Char.isDigit && mant.all fun c => !c.isDigit || c == '0'

/-- Python `bool(...)` on a JSON value. -/
def pyBool : Jv → Bool
  | Jv.jnull => false
  | Jv.jbool b => b
  | Jv.jnum lit => !(numIsZero lit)
  | Jv.jstr s => !(s == "")
  | Jv.jarr xs => !xs.isEmpty
  | Jv.jobj ps => !ps.isEmpty

/-- Python `dict(pairs).get(k)`: the last binding of `k` wins. -/
def jGet (ps : List (String × Jv)) (k : String) : Option Jv :=
  (ps.reverse.find? fun p => p.1 == k).map fun p => p.2

mutual

/-- Rendering of a JSON value as a Python-ish literal.  Used only where the
source coerces a non-string JSON value into a string-typed slot (exact
CPython repr formatting is abstracted; no verified property depends on it). -/
def jvRender : Jv → String
  | Jv.jnull => "None"
  | Jv.jbool true => "True"
  | Jv.jbool false => "False"
  | Jv.jnum lit => String.mk lit
  | Jv.jstr s => s
  | Jv.jarr xs => "[" ++ jvRenderList xs ++ "]"
  | Jv.jobj ps => "\x7b" ++ jvRenderPairs ps ++ "\x7d"

/-- Comma-separated rendering of a list of JSON values. -/
def jvRenderList : List Jv → String
  | [] => ""
  | [x] => jvRender x
  | x :: y :: xs => jvRender x ++ ", " ++ jvRenderList (y :: xs)

/-- Comma-separated rendering of object members. -/
def jvRenderPairs : List (String × Jv) → String
  | [] => ""
  | [(k, v)] => k ++ ": " ++ jvRender v
  | (k, v) :: y :: xs => k ++ ": " ++ jvRender v ++ ", " ++ jvRenderPairs (y :: xs)

end

theorem jsonOk_sample_object : jsonOk "\x7b\"a\":1\x7d" = true := by decide

theorem jsonOk_sample_not_json : jsonOk "not json" = false := by decide

/- ------------------------------------------------------------------ -/
/- context_extractor.py                                                -/
/- ------------------------------------------------------------------ -/

/-- The backtick character (written via its code point). -/
def tick : Char := Char.ofNat 96

/-- Three backticks — the fence delimiter of the code-block regex. -/
def ticks : List Char := [tick, tick, tick]

/-- Does the list start with three backticks? -/
def tickPre (l : List Char) : Bool :=
  decide (l.take 3 = ticks)

/-- Does the list contain three consecutive backticks anywhere? -/
def hasTicks : List Char → Bool
  | [] => false
  | c :: l => tickPre (c :: l) || hasTicks l

/-- Split the input at the first occurrence of three consecutive backticks:
returns (characters before it, characters after it). -/
def splitAtTicks : List Char → Option (List Char × List Char)
  | [] => none
  | c :: l =>
    if tickPre (c :: l) then some ([], (c :: l).drop 3)
    else (splitAtTicks l).map fun p => (c :: p.1, p.2)

/-- Word character of the regex class `\w` (ASCII portion; fence language
tags are ASCII in practice). -/
def isWordChar (c : Char) : Bool :=
  c.isAlphanum || c == '_'

/-- Try to match the regex ```` ```(?:\w+)?\n?(.*?)``` ```` (with re.DOTALL)
at the head of the input: opening fence, maximal run of word characters,
one optional newline, then the shortest span up to a closing fence.
Returns the captured group and the input after the match.  (Regex
backtracking cannot change success here: the optional-tag and newline
characters are never backticks, so a closing fence exists after the greedy
attempt iff it exists at all.) -/
def matchFenceAt (l : List Char) : Option (List Char × List Char) :=
  if tickPre l then
    let l1 := (l.drop 3).dropWhile isWordChar
    let l2 := match l1 with
      | c :: r => if c = '\n' then r else l1
      | [] => l1
    splitAtTicks l2
  else none

/-- Model of `re.findall` for the fence regex: scan left to right, on a match emit
the captured group and resume after the match, otherwise advance one
character.  Each step consumes at least one input character, so fuel equal
to the input length never runs out. -/
def findBlocksF : Nat → List Char → List (List Char)
  | _, [] => []
  | 0, _ :: _ => []
  | Nat.succ fuel, c :: rest =>
    match matchFenceAt (c :: rest) with
    | some (b, r2) => b :: findBlocksF fuel r2
    | none => findBlocksF fuel rest

/-- Model of `"\n\n".join(...)` at the character-list level. -/
def joinBlocks : List (List Char) → List Char
  | [] => []
  | [b] => b
  | b :: b2 :: bs => b ++ '\n' :: '\n' :: joinBlocks (b2 :: bs)

/-- Model of `extract_code_blocks`: contents of all fenced blocks, each stripped,
joined by a blank line; empty string when there are none. -/
def extract_code_blocks (text : String) : String :=
  let blocks := findBlocksF text.toList.length text.toList
  String.mk (joinBlocks (blocks.map stripList))

/-- Modelled from the spec: wrapping a string back in a triple-backtick
fence (the round-trip operation of the idempotence property; the fence is
the canonical one with a newline on each side of the content). -/
def fenceWrap (s : String) : String :=
  "```\n" ++ s ++ "\n```"

/-- The scanning loop of `extract_json` for one bracket pair: `pre` is the
span consumed so far (starting at the first occurrence of the opening
character), `depth` the running bracket depth.  On a closing character that
brings the depth to exactly 0, the span so far is a candidate; it is
returned if `json.loads` accepts it, otherwise scanning continues. -/
def scanJson (sc ec : Char) (pre : List Char) (depth : Int) : List Char → Option (List Char)
  | [] => none
  | c :: rest =>
    if c = sc then scanJson sc ec (pre ++ [c]) (depth + 1) rest
    else if c = ec then
      if depth - 1 = 0 then
        if jsonOk (String.mk (pre ++ [c])) then some (pre ++ [c])
        else scanJson sc ec (pre ++ [c]) (depth - 1) rest
      else scanJson sc ec (pre ++ [c]) (depth - 1) rest
    else scanJson sc ec (pre ++ [c]) depth rest

/-- Model of `extract_json`: scan from the first `\x7b` for a depth-balanced span that
parses as JSON; failing that, the same from the first `[`; else empty
string. -/
def extract_json (text : String) : String :=
  match scanJson '{' '}' [] 0 (text.toList.dropWhile fun c => !(c == '{')) with
  | some c => String.mk c
  | none =>
    match scanJson '[' ']' [] 0 (text.toList.dropWhile fun c => !(c == '[')) with
    | some c => String.mk c
    | none => ""

/-- Synchronous `extract_context` for modes full / code_only / json_only
(any other mode falls through to the full text, as in the source). -/
def extract_context (text mode : String) : String :=
  if mode = "full" then text
  else if mode = "code_only" then extract_code_blocks text
  else if mode = "json_only" then extract_json text
  else text

/- ------------------------------------------------------------------ -/
/- llm_client.py                                                       -/
/- ------------------------------------------------------------------ -/

/-- Static per-model price table (input price, output price per 1000
tokens); source floats 0.0003 and 0.0012 as rationals. -/
def MODEL_COSTS : List (String × ℚ × ℚ) :=
  [("kimi-k2p5", (3/10000, 12/10000)),
   ("kimi-k2-instruct-0905", (3/10000, 12/10000))]

/-- Model of `_estimate_cost`: table lookup with fall-back to the "kimi-k2p5" entry,
then `input/1000 * in_price + output/1000 * out_price`. -/
def _estimate_cost (model : String) (input_tokens output_tokens : Nat) : ℚ :=
  let costs := (MODEL_COSTS.lookup model).getD ((MODEL_COSTS.lookup "kimi-k2p5").getD (0, 0))
  (input_tokens : ℚ) / 1000 * costs.1 + (output_tokens : ℚ) / 1000 * costs.2

/-- One message of a chat-completion request. -/
structure ChatMsg where
  role : String
  content : String
deriving DecidableEq

/-- Reply of the remote endpoint on one successful call. -/
structure LlmResp where
  content : String
  input_tokens : Nat
  output_tokens : Nat
  latency_ms : Nat
deriving DecidableEq

/-- External collaborators of the engine: the remote chat endpoint
(indexed by the number of calls made so far; an `error` is the message of
the RuntimeError `call_llm` raises after its internal transport retry /
HTTP-status handling) and the regex engine backing `re.search`
(`none` models an `re.error`). -/
structure RmEnv where
  llm : Nat → Except String LlmResp
  regexSearch : String → String → Option Bool

/-- Model of `call_llm`: consult the remote endpoint, count the call, and attach the
estimated cost on success. -/
def call_llm (env : RmEnv) (calls : Nat) (_messages : List ChatMsg) (model : String)
    (_max_tokens : Nat) (_temperature : ℚ) : Nat × Except String (LlmResp × ℚ) :=
  (calls + 1,
    match env.llm calls with
    | Except.error e => Except.error e
    | Except.ok r => Except.ok (r, _estimate_cost model r.input_tokens r.output_tokens))

/-- Model of `extract_summary`: inputs shorter than 500 characters are returned
unchanged without a remote call; otherwise one summarization call is made
and its trimmed reply returned (a transport error propagates). -/
def extract_summary (env : RmEnv) (calls : Nat) (text model : String) : Nat × Except String String :=
  if text.length < 500 then (calls, Except.ok text)
  else
    let res := call_llm env calls
      [⟨"user", "Summarize the following in 2-4 sentences, preserving key facts and outputs:\n\n" ++ text⟩]
      model 256 (7/10)
    (res.1,
      match res.2 with
      | Except.error e => Except.error e
      | Except.ok p => Except.ok (pystrip p.1.content))

/-- Model of `extract_context_async`: summary mode may call the remote endpoint; all
other modes are the synchronous extraction. -/
def extract_context_async (env : RmEnv) (calls : Nat) (text mode model : String) :
    Nat × Except String String :=
  if mode = "summary" then extract_summary env calls text model
  else (calls, Except.ok (extract_context text mode))

theorem extract_code_blocks_sample :
    extract_code_blocks "pre ```py\nx = 1\n``` post" = "x = 1" := by decide

theorem extract_json_sample :
    extract_json "noise \x7b\"a\": 1\x7d tail" = "\x7b\"a\": 1\x7d" := by decide

/- ------------------------------------------------------------------ -/
/- evaluation.py                                                       -/
/- ------------------------------------------------------------------ -/

/-- The `details` sub-dict of an evaluation result; each field starts as
None and is filled in as the corresponding check runs. -/
structure EvalDetails where
  rule_passed : Option Bool
  rule_reason : Option String
  llm_judge_passed : Option Bool
  llm_judge_reason : Option String
deriving DecidableEq

/-- An evaluation result dict.  `result` is the normal shape
`\x7bpassed, reason?, details, error\x7d` (`reason := none` models the absent
key of the success record, `details := none` the empty dict of the
empty-output record); `crash` is the bare `\x7b"error": ...\x7d` record
produced when evaluation itself raises. -/
inductive EvalResult where
  | result : Bool → Option String → Option EvalDetails → Option String → EvalResult
  | crash : String → EvalResult
deriving DecidableEq

/-- Model of `_rule_contains`: `bool(value and text and value in text)`. -/
def _rule_contains (text value : String) : Bool :=
  !(value == "") && !(text == "") && strContainsSub text value

/-- Model of `_rule_regex`: false on empty text or pattern, false on `re.error`,
else the search outcome of the external regex engine. -/
def _rule_regex (re : String → String → Option Bool) (text pattern : String) : Bool :=
  if text = "" ∨ pattern = "" then false
  else
    match re pattern text with
    | some b => b
    | none => false

/-- Model of `_rule_json_valid`: false on empty text, else `json.loads` success. -/
def _rule_json_valid (text : String) (_value : String) : Bool :=
  if text = "" then false else jsonOk text

/-- Model of `_rule_code_block_present`: a fence marker occurs in the text. -/
def _rule_code_block_present (text : String) (_value : String) : Bool :=
  !(text == "") && strContainsSub text "```"

/-- The RULE_HANDLERS dict lookup. -/
def RULE_HANDLERS (re : String → String → Option Bool) (k : String) :
    Option (String → String → Bool) :=
  if k = "contains" then some _rule_contains
  else if k = "regex" then some (_rule_regex re)
  else if k = "json_valid" then some _rule_json_valid
  else if k = "code_block_present" then some _rule_code_block_present
  else none

/-- Model of `evaluate_rule`: dispatch on rule type; unknown types are a failure
with an explicit reason, never an exception (the function is total). -/
def evaluate_rule (re : String → String → Option Bool) (rule_type : String)
    (rule_value : Option String) (output : String) : Bool × String :=
  match RULE_HANDLERS re rule_type with
  | none => (false, "Unknown rule type: " ++ rule_type)
  | some handler =>
    let passed := handler output (rule_value.getD "")
    (passed, "Rule '" ++ rule_type ++ "' " ++ (if passed then "passed" else "failed"))

/-- Default judge prompt of `evaluate_llm_judge`. -/
def default_judge_prompt : String :=
  "Evaluate if the following output meets the expected quality and completeness. " ++
  "Respond ONLY in JSON: \x7b\"pass\": true/false, \"reason\": \"...\"\x7d"

/-- Python `str.lower()` (ASCII portion; the heuristic below only looks for
the ASCII word "true"). -/
def pyLower (s : String) : String :=
  String.mk (s.toList.map Char.toLower)

/-- Case-insensitive containment of the literal "true"
(`"true" in content.lower()`). -/
def hasTrueSub (content : String) : Bool :=
  strContainsSub (pyLower content) "true"

/-- Model of `evaluate_llm_judge`: one judge call; a JSON-object reply is read via
`dict.get` (with Python truthiness on "pass" and the raw value of
"reason"), anything else — unparseable JSON, or a non-dict value whose
`.get` raises inside the try — falls back to the "true"-substring
heuristic over the raw reply.  A transport error escapes (first component
is always the updated call count). -/
def evaluate_llm_judge (env : RmEnv) (calls : Nat) (output : String)
    (judge_prompt : Option String) (model : String) : Nat × Except String (Bool × String) :=
  let prompt := match judge_prompt with
    | some p => if p = "" then default_judge_prompt else p
    | none => default_judge_prompt
  let full_prompt := prompt ++ "\n\n---\nOutput:\n" ++ output
  let res := call_llm env calls [⟨"user", full_prompt⟩] model 512 (7/10)
  (res.1,
    match res.2 with
    | Except.error e => Except.error e
    | Except.ok p =>
      let content := p.1.content
      Except.ok (match json_loads content with
        | some (Jv.jobj pairs) =>
          (pyBool ((jGet pairs "pass").getD (Jv.jbool false)),
           match (jGet pairs "reason").getD (Jv.jstr "No reason provided") with
           | Jv.jstr s => s
           | v => jvRender v)
        | _ => (hasTrueSub content, pystrip content)))

/-- Model of `evaluate_completion`: empty-output guard, then the rule check, then
the optional judge; a judge-call exception is caught by the enclosing try
and returned as a bare-error record.  Returns (updated call count, passed,
result record). -/
def evaluate_completion (env : RmEnv) (calls : Nat) (output : String) (rule_type : String)
    (rule_value : Option String) (llm_judge_enabled : Bool) (llm_judge_prompt : Option String)
    (model : String) : Nat × Bool × EvalResult :=
  if pystrip output = "" then
    (calls, false, EvalResult.result false (some "LLM output was empty") none none)
  else
    let rr := evaluate_rule env.regexSearch rule_type rule_value output
    if rr.1 = false then
      (calls, false,
        EvalResult.result false (some rr.2) (some ⟨some rr.1, some rr.2, none, none⟩) none)
    else if llm_judge_enabled then
      let jr := evaluate_llm_judge env calls output llm_judge_prompt model
      match jr.2 with
      | Except.error e => (jr.1, false, EvalResult.crash e)
      | Except.ok lp =>
        if lp.1 = false then
          (jr.1, false,
            EvalResult.result false (some lp.2)
              (some ⟨some rr.1, some rr.2, some lp.1, some lp.2⟩) none)
        else
          (jr.1, true,
            EvalResult.result true none
              (some ⟨some rr.1, some rr.2, some lp.1, some lp.2⟩) none)
    else
      (calls, true, EvalResult.result true none (some ⟨some rr.1, some rr.2, none, none⟩) none)

theorem evaluate_rule_contains_sample :
    (evaluate_rule (fun _ _ => none) "contains" (some "pass") "this should pass").1 = true := by
  decide

/- ------------------------------------------------------------------ -/
/- executor.py                                                         -/
/- ------------------------------------------------------------------ -/

/-- A WorkflowStep row (the configuration fields the engine reads). -/
structure WorkflowStepR where
  id : String
  name : String
  position : Nat
  prompt_template : String
  model : String
  max_tokens : Nat
  temperature : ℚ
  retry_limit : Nat
  context_mode : String
  rule_type : String
  rule_value : Option String
  llm_judge_enabled : Bool
  llm_judge_prompt : Option String

/-- A WorkflowRun row (timestamps are not modelled; no verified property
mentions them). -/
structure RunR where
  workflow_id : String
  status : String
  failure_reason : Option String
deriving DecidableEq

/-- A StepRun row. -/
structure StepRunR where
  id : String
  workflow_run_id : String
  workflow_step_id : String
  position : Nat
  status : String
  attempt_number : Nat
  input_context : Option String
  output : Option String
  extracted_context : Option String
  evaluation_result : Option EvalResult
  failure_reason : Option String

/-- An LLMLog row (append-only). -/
structure LLMLogR where
  id : String
  step_run_id : String
  call_type : String
  attempt_number : Nat
  prompt : String
  response : String
  input_tokens : Nat
  output_tokens : Nat
  total_tokens : Nat
  cost_usd : ℚ
  model : String
  latency_ms : Nat

/-- The persistent store. -/
structure DBState where
  runs : List (String × RunR)
  workflows : List (String × List WorkflowStepR)
  stepRuns : List StepRunR
  llmLogs : List LLMLogR

/-- Execution state threaded through the engine: the store, the number of
remote calls made (the environment's index) and a fresh-id counter
standing in for uuid4. -/
structure ExecSt where
  db : DBState
  calls : Nat
  uuids : Nat

/-- Fresh id from the uuid counter (models `str(uuid.uuid4())`). -/
def uuidStr (n : Nat) : String :=
  "uuid-" ++ toString n

/-- Update the run with the given id. -/
def updateRun (db : DBState) (rid : String) (f : RunR → RunR) : DBState :=
  { db with runs := db.runs.map fun p => if p.1 = rid then (p.1, f p.2) else p }

/-- Update the step run with the given id. -/
def updateStepRun (db : DBState) (sid : String) (f : StepRunR → StepRunR) : DBState :=
  { db with stepRuns := db.stepRuns.map fun sr => if sr.id = sid then f sr else sr }

/-- Rendering of an evaluation-result dict as a string (models Python's
`str(dict)`; exact repr formatting is abstracted — no verified property
depends on it). -/
def evalResultRepr : EvalResult → String
  | EvalResult.crash e => "\x7b'error': '" ++ e ++ "'\x7d"
  | EvalResult.result p r _ _ =>
    "\x7b'passed': " ++ (if p then "True" else "False") ++
    ", 'reason': " ++ (match r with | some s => "'" ++ s ++ "'" | none => "None") ++ ", ...\x7d"

/-- Model of `eval_result.get("reason") or str(eval_result)` (Python truthiness:
a missing or empty reason falls back to the dict's string form). -/
def getReasonOr (ev : EvalResult) : String :=
  match ev with
  | EvalResult.crash _ => evalResultRepr ev
  | EvalResult.result _ r _ _ =>
    match r with
    | some s => if s = "" then evalResultRepr ev else s
    | none => evalResultRepr ev

/-- Rendering of the message list stored in the log's `prompt` column
(models Python's `str(messages)`; repr escaping is abstracted). -/
def msgsRepr (ms : List ChatMsg) : String :=
  "[" ++ String.intercalate ", "
    (ms.map fun m => "\x7b'role': '" ++ m.role ++ "', 'content': '" ++ m.content ++ "'\x7d") ++ "]"

/-- The retry-feedback system-message template. -/
def RETRY_FEEDBACK_TEMPLATE (feedback : String) : String :=
  "\n---\nPrevious attempt failed. Feedback:\n" ++ feedback ++
  "\n\nPlease address the above and try again. Your revised response:\n"

/-- Model of `_build_messages`: substitute the context placeholder, fail if it is
still present afterwards, and prepend the retry-feedback system message
when feedback is given. -/
def _build_messages (prompt_template : String) (context : Option String)
    (retry_feedback : Option String) : Except String (List ChatMsg) :=
  let prompt := prompt_template.replace "\x7b\x7bcontext\x7d\x7d" (context.getD "")
  if strContainsSub prompt "\x7b\x7bcontext\x7d\x7d" then
    Except.error "Context placeholder '\x7b\x7bcontext\x7d\x7d' was not replaced"
  else
    let msgs : List ChatMsg :=
      if optTruthy retry_feedback then
        [⟨"system", RETRY_FEEDBACK_TEMPLATE (retry_feedback.getD "")⟩]
      else []
    Except.ok (msgs ++ [⟨"user", prompt⟩])

/-- The tail of `_execute_single_step` from the extraction-mode fallback on:
for a non-`full` mode whose extraction stripped to nothing, fall back to the
stripped raw output; raise when the result still strips to nothing. -/
def resolveExtracted (step_name context_mode content extracted0 : String) :
    Except String String :=
  let extracted1 :=
    if context_mode ≠ "full" ∧ pystrip extracted0 = "" then pystrip content else extracted0
  if pystrip extracted1 = "" then
    Except.error ("Context extraction failed for step '" ++ step_name ++ "' (mode=" ++
      context_mode ++ ")")
  else Except.ok extracted1

/-- Model of `_execute_single_step`: build messages, call the model, append exactly
one log row, evaluate, extract, apply the extraction fallback.  Errors of
any stage surface in the `Except` (the caller's try/except); the state
records everything already committed before the error. -/
def _execute_single_step (env : RmEnv) (st : ExecSt) (step : WorkflowStepR)
    (stepRunId : String) (attempt_number : Nat) (input_context : Option String)
    (retry_feedback : Option String) :
    ExecSt × Except String (String × String × Bool × EvalResult) :=
  match _build_messages step.prompt_template input_context retry_feedback with
  | Except.error e => (st, Except.error e)
  | Except.ok messages =>
    let cres := call_llm env st.calls messages step.model step.max_tokens step.temperature
    let st1 : ExecSt := { st with calls := cres.1 }
    match cres.2 with
    | Except.error e => (st1, Except.error e)
    | Except.ok rc =>
      let log : LLMLogR :=
        { id := uuidStr st1.uuids
          step_run_id := stepRunId
          call_type := if optTruthy retry_feedback then "retry" else "main"
          attempt_number := attempt_number
          prompt := msgsRepr messages
          response := rc.1.content
          input_tokens := rc.1.input_tokens
          output_tokens := rc.1.output_tokens
          total_tokens := rc.1.input_tokens + rc.1.output_tokens
          cost_usd := rc.2
          model := step.model
          latency_ms := rc.1.latency_ms }
      let st2 : ExecSt :=
        { st1 with db := { st1.db with llmLogs := st1.db.llmLogs ++ [log] }
                   uuids := st1.uuids + 1 }
      let ev := evaluate_completion env st2.calls rc.1.content step.rule_type step.rule_value
        step.llm_judge_enabled step.llm_judge_prompt step.model
      let st3 : ExecSt := { st2 with calls := ev.1 }
      let ex := extract_context_async env st3.calls rc.1.content step.context_mode step.model
      let st4 : ExecSt := { st3 with calls := ex.1 }
      match ex.2 with
      | Except.error e => (st4, Except.error e)
      | Except.ok extracted0 =>
        match resolveExtracted step.name step.context_mode rc.1.content extracted0 with
        | Except.error e => (st4, Except.error e)
        | Except.ok extracted => (st4, Except.ok (rc.1.content, extracted, ev.2.1, ev.2.2))

/-- The per-step retry loop of `run_workflow`.  `remaining` counts the
iterations the `while retry_count <= step.retry_limit` guard still allows
(the loop is entered with `remaining = retry_limit + 1, retry_count = 0`
and maintains `remaining = retry_limit + 1 - retry_count`).  Returns the
state, whether the step passed, the final failure reason, and the new
accumulated context on success. -/
def runStepAttempts (env : RmEnv) (step : WorkflowStepR) (srId : String)
    (accCtx : Option String) :
    Nat → Nat → String → ExecSt → ExecSt × Bool × String × Option String
  | 0, _, fr, st => (st, false, fr, none)
  | Nat.succ rem, retry_count, fr, st =>
    let st1 : ExecSt :=
      { st with db := updateStepRun st.db srId fun sr => { sr with attempt_number := retry_count + 1 } }
    let retry_feedback : Option String :=
      if retry_count > 0 then some ("Attempt " ++ toString retry_count ++ " failed. Reason: " ++ fr)
      else none
    let res := _execute_single_step env st1 step srId (retry_count + 1) accCtx retry_feedback
    match res.2 with
    | Except.error e =>
      let eval_result := EvalResult.crash e
      let st3 : ExecSt :=
        { res.1 with db := updateStepRun res.1.db srId fun sr =>
            { sr with evaluation_result := some eval_result } }
      runStepAttempts env step srId accCtx rem (retry_count + 1) (getReasonOr eval_result) st3
    | Except.ok out =>
      if out.2.2.1 then
        let st3 : ExecSt :=
          { res.1 with db := updateStepRun res.1.db srId fun sr =>
              { sr with status := "completed", output := some out.1,
                        extracted_context := some out.2.1,
                        evaluation_result := some out.2.2.2 } }
        (st3, true, fr, some out.2.1)
      else
        let st3 : ExecSt :=
          { res.1 with db := updateStepRun res.1.db srId fun sr =>
              { sr with evaluation_result := some out.2.2.2 } }
        runStepAttempts env step srId accCtx rem (retry_count + 1) (getReasonOr out.2.2.2) st3

/-- The step iteration of `run_workflow`: create a StepRun, run the retry
loop, and either continue with the new context or finalize step and run as
failed (later steps never run). -/
def runSteps (env : RmEnv) : ExecSt → String → List WorkflowStepR → Option String →
    ExecSt × Option String
  | st, run_id, [], _ =>
    ({ st with db := updateRun st.db run_id fun r => { r with status := "completed" } }, none)
  | st, run_id, step :: rest, accCtx =>
    let srId := uuidStr st.uuids
    let sr : StepRunR :=
      { id := srId, workflow_run_id := run_id, workflow_step_id := step.id,
        position := step.position, status := "running", attempt_number := 0,
        input_context := accCtx, output := none, extracted_context := none,
        evaluation_result := none, failure_reason := none }
    let st1 : ExecSt :=
      { st with db := { st.db with stepRuns := st.db.stepRuns ++ [sr] }, uuids := st.uuids + 1 }
    let lres := runStepAttempts env step srId accCtx (step.retry_limit + 1) 0 "" st1
    if lres.2.1 then runSteps env lres.1 run_id rest lres.2.2.2
    else
      let st3 : ExecSt :=
        { lres.1 with db := updateStepRun lres.1.db srId fun s =>
            { s with status := "failed", failure_reason := some lres.2.2.1 } }
      let st4 : ExecSt :=
        { st3 with db := updateRun st3.db run_id fun r =>
            { r with status := "failed",
                     failure_reason := some ("Step '" ++ step.name ++ "' failed after " ++
                       toString step.retry_limit ++ " retries: " ++ lres.2.2.1) } }
      (st4, none)

/-- Model of `run_workflow`: guard (missing run or status ≠ pending returns with no
change), mark running, load and sort the steps, then iterate.  The second
component is the message of an exception escaping the function (only the
pre-loop workflow lookup can raise here: every exception inside the loop is
converted into a failed attempt by the inner try, so the outer
try/except/re-raise never fires in this model). -/
def run_workflow (env : RmEnv) (st : ExecSt) (workflow_run_id : String) :
    ExecSt × Option String :=
  match st.db.runs.lookup workflow_run_id with
  | none => (st, none)
  | some run =>
    if run.status = "pending" then
      let st1 : ExecSt :=
        { st with db := updateRun st.db workflow_run_id fun r => { r with status := "running" } }
      match st1.db.workflows.lookup run.workflow_id with
      | none => (st1, some "AttributeError: 'NoneType' object has no attribute 'steps'")
      | some steps0 =>
        let steps := steps0.insertionSort fun a b => a.position ≤ b.position
        runSteps env st1 workflow_run_id steps none
    else (st, none)

/-- Number of log rows recorded for a given StepRun. -/
def countLogsFor (st : ExecSt) (sid : String) : Nat :=
  (st.db.llmLogs.filter fun l => l.step_run_id = sid).length

/- ------------------------------------------------------------------ -/
/- Concrete fixtures used by witnesses                                 -/
/- ------------------------------------------------------------------ -/

/-- An environment whose remote endpoint always answers with a fixed
non-JSON reply containing "TRUE", and whose regex engine always errors. -/
def envTrue : RmEnv :=
  ⟨fun _ => Except.ok ⟨"it is TRUE indeed", 3, 4, 5⟩, fun _ _ => none⟩

/-- A store holding one run that is already in a terminal state. -/
def stCompleted : ExecSt :=
  ⟨⟨[("r1", ⟨"w1", "completed", none⟩)], [], [], []⟩, 0, 0⟩

/-- Net bracket depth of a span: +1 per opening, -1 per closing character. -/
def jdepth (sc ec : Char) : List Char → Int
  | [] => 0
  | c :: l => (if c = sc then 1 else if c = ec then -1 else 0) + jdepth sc ec l

/-- A candidate as the `extract_json` scan can see it: some position `n` of
`l` (the input from the first occurrence of the opening character) holds
the closing character, the prefix ending there has net depth zero, and
that prefix parses as JSON. -/
def validCandidateFrom (sc ec : Char) (l : List Char) : Prop :=
  ∃ n, n < l.length ∧ l[n]? = some ec ∧
    jdepth sc ec (l.take (n + 1)) = 0 ∧ jsonOk (String.mk (l.take (n + 1))) = true

/-- Modelled from the spec: "any balanced `\x7b...\x7d` or `[...]` span in the
input is valid JSON" — some span (anywhere in the text) that starts with
the opening character, ends with the closing one and has net bracket depth
zero parses as JSON.  Decidable so concrete inputs can be checked. -/
def balancedValidSpanB (sc ec : Char) (text : String) : Bool :=
  let l := text.toList
  (List.range l.length).any fun i =>
    (List.range (l.length - i)).any fun m =>
      let s := (l.drop i).take (m + 1)
      (s.head? == some sc) && (s.getLast? == some ec) &&
        decide (jdepth sc ec s = 0) && jsonOk (String.mk s)

/- ------------------------------------------------------------------ -/
/- Generic list/strip lemmas                                           -/
/- ------------------------------------------------------------------ -/

theorem dropWhile_idem {α : Type} (p : α → Bool) (l : List α) :
    (l.dropWhile p).dropWhile p = l.dropWhile p := by
  induction l with
  | nil => rfl
  | cons c t ih =>
    by_cases h : p c
    · simpa [List.dropWhile_cons, h] using ih
    · simp [List.dropWhile_cons, h]

theorem dropWhile_head_false {α : Type} (p : α → Bool) (l : List α) (c : α) (t : List α)
    (h : l.dropWhile p = c :: t) : p c = false := by
  induction l with
  | nil => simp at h
  | cons a l' ih =>
    by_cases ha : p a
    · exact ih (by simpa [List.dropWhile_cons, ha] using h)
    · rw [List.dropWhile_cons_of_neg ha] at h
      cases h
      simpa using ha

theorem dropWhile_suffix_decomp {α : Type} (p : α → Bool) (l : List α) :
    ∃ t, l = t ++ l.dropWhile p := by
  induction l with
  | nil => exact ⟨[], rfl⟩
  | cons c t ih =>
    by_cases h : p c
    · obtain ⟨u, hu⟩ := ih
      exact ⟨c :: u, by simp [List.dropWhile_cons, h]; exact hu⟩
    · exact ⟨[], by simp [List.dropWhile_cons, h]⟩

theorem stripList_dropWhile_self (l : List Char) :
    (stripList l).dropWhile pyIsSpace = stripList l := by
  unfold stripList
  obtain ⟨t, ht⟩ := dropWhile_suffix_decomp pyIsSpace (l.dropWhile pyIsSpace).reverse
  set D := (l.dropWhile pyIsSpace).reverse.dropWhile pyIsSpace with hD
  cases hB : D.reverse with
  | nil => simp [hB]
  | cons c bt =>
    have hA : l.dropWhile pyIsSpace = D.reverse ++ t.reverse := by
      have := congrArg List.reverse ht
      simpa [List.reverse_append] using this
    have hhead : l.dropWhile pyIsSpace = c :: (bt ++ t.reverse) := by
      rw [hA, hB]; simp
    have hpc : pyIsSpace c = false := dropWhile_head_false _ _ _ _ hhead
    rw [List.dropWhile_cons_of_neg (by simp [hpc])]

theorem stripList_idem (l : List Char) : stripList (stripList l) = stripList l := by
  have h1 : (stripList l).dropWhile pyIsSpace = stripList l := stripList_dropWhile_self l
  have h2 : (stripList l).reverse.dropWhile pyIsSpace = (stripList l).reverse := by
    unfold stripList
    rw [List.reverse_reverse]
    exact dropWhile_idem pyIsSpace _
  show (((stripList l).dropWhile pyIsSpace).reverse.dropWhile pyIsSpace).reverse = stripList l
  rw [h1, h2, List.reverse_reverse]

theorem pystrip_idem (s : String) : pystrip (pystrip s) = pystrip s := by
  unfold pystrip
  have : (String.mk (stripList s.toList)).toList = stripList s.toList := rfl
  rw [this, stripList_idem]

theorem pystrip_empty_iff (s : String) : pystrip s = "" ↔ stripList s.toList = [] := by
  unfold pystrip
  constructor
  · intro h
    have := congrArg String.data h
    simpa using this
  · intro h; rw [h]

/- ------------------------------------------------------------------ -/
/- Claim theorems                                                      -/
/- ------------------------------------------------------------------ -/

/-- C5: `run_workflow` on a run id whose run does not exist, or whose run
is not in status "pending", returns immediately with the state unchanged;
in particular a run in a terminal state ("completed" or "failed") is never
transitioned again. -/
theorem run_workflow_pending_guard (env : RmEnv) (st : ExecSt) (rid : String) :
    (st.db.runs.lookup rid = none → run_workflow env st rid = (st, none)) ∧
    (∀ r, st.db.runs.lookup rid = some r → r.status ≠ "pending" →
      run_workflow env st rid = (st, none)) := by
  constructor
  · intro h
    simp [run_workflow, h]
  · intro r h hs
    simp [run_workflow, h, hs]

/-- Witness for C5: a store holding a run already in the terminal state
"completed" is left untouched by `run_workflow`. -/
theorem run_workflow_pending_guard_witness :
    run_workflow envTrue stCompleted "r1" = (stCompleted, none) :=
  (run_workflow_pending_guard envTrue stCompleted "r1").2
    ⟨"w1", "completed", none⟩ (by decide) (by decide)

/-- C7: for every rule type outside the closed handler set, and any rule
value and output, `evaluate_rule` returns `passed = false` with a reason
naming the unknown rule type.  (The Lean embedding is a total function:
no exception is possible, mirroring the dict-get guard of the source.) -/
theorem evaluate_rule_unknown_type (re : String → String → Option Bool) (rule_type : String)
    (rule_value : Option String) (output : String)
    (h1 : rule_type ≠ "contains") (h2 : rule_type ≠ "regex")
    (h3 : rule_type ≠ "json_valid") (h4 : rule_type ≠ "code_block_present") :
    evaluate_rule re rule_type rule_value output =
      (false, "Unknown rule type: " ++ rule_type) := by
  simp [evaluate_rule, RULE_HANDLERS, h1, h2, h3, h4]

/-- Witness for C7 at the concrete unknown rule type "not_a_rule". -/
theorem evaluate_rule_unknown_type_witness :
    evaluate_rule (fun _ _ => none) "not_a_rule" none "some output" =
      (false, "Unknown rule type: not_a_rule") := by
  have h := evaluate_rule_unknown_type (fun _ _ => none) "not_a_rule" none "some output"
    (by decide) (by decide) (by decide) (by decide)
  rw [h]; decide

/-- C9: estimated cost is `input/1000 * in_price + output/1000 * out_price`
with the prices taken from the static table, and a model id missing from
the table uses the default model's ("kimi-k2p5") entry. -/
theorem estimate_cost_spec (model : String) (i o : Nat) :
    (∀ pin pout : ℚ, MODEL_COSTS.lookup model = some (pin, pout) →
      _estimate_cost model i o = (i : ℚ) / 1000 * pin + (o : ℚ) / 1000 * pout) ∧
    (MODEL_COSTS.lookup model = none →
      _estimate_cost model i o = _estimate_cost "kimi-k2p5" i o) := by
  constructor
  · intro pin pout h
    simp [_estimate_cost, h]
  · intro h
    have hk : MODEL_COSTS.lookup "kimi-k2p5" = some ((3 : ℚ) / 10000, (12 : ℚ) / 10000) := by
      simp [ MODEL_COSTS, List.lookup]
    simp [_estimate_cost, h, hk]

/-- Witness for C9: the known model "kimi-k2p5" uses its own table entry,
and the unknown model "zzz" falls back to that same entry. -/
theorem estimate_cost_spec_witness :
    _estimate_cost "kimi-k2p5" 1000 2000 =
      (1000 : ℚ) / 1000 * (3 / 10000) + (2000 : ℚ) / 1000 * (12 / 10000) ∧
    _estimate_cost "zzz" 1000 2000 = _estimate_cost "kimi-k2p5" 1000 2000 :=
  ⟨(estimate_cost_spec "kimi-k2p5" 1000 2000).1 (3 / 10000) (12 / 10000) (by simp [ MODEL_COSTS, List.lookup]),
   (estimate_cost_spec "zzz" 1000 2000).2 (by simp [ MODEL_COSTS, List.lookup])⟩

/-- C10: the "contains" rule fails for an empty (or None) rule value on any
output, and for any rule value on an empty output — even though the empty
string is a substring of every string. -/
theorem contains_rule_empty_cases (re : String → String → Option Bool)
    (output : String) (rv : Option String) :
    evaluate_rule re "contains" none output = (false, "Rule 'contains' failed") ∧
    evaluate_rule re "contains" (some "") output = (false, "Rule 'contains' failed") ∧
    evaluate_rule re "contains" rv "" = (false, "Rule 'contains' failed") ∧
    ("".toList <:+: output.toList) := by
  refine ⟨?_, ?_, ?_, ?_⟩
  · simp [evaluate_rule, RULE_HANDLERS, _rule_contains]
  · simp [evaluate_rule, RULE_HANDLERS, _rule_contains]
  · simp [evaluate_rule, RULE_HANDLERS, _rule_contains]
  · exact List.nil_infix

/-- C6: when the judge call succeeds but its reply does not parse as JSON,
`evaluate_llm_judge` returns `passed` true iff the literal substring "true"
(case-insensitively) occurs in the raw reply, with the trimmed raw reply as
the reason. -/
theorem judge_non_json_fallback (env : RmEnv) (calls : Nat) (output : String)
    (jp : Option String) (model : String) (r : LlmResp)
    (h1 : env.llm calls = Except.ok r)
    (h2 : (json_loads r.content).isSome = false) :
    evaluate_llm_judge env calls output jp model =
      (calls + 1, Except.ok (hasTrueSub r.content, pystrip r.content)) := by
  have hn : json_loads r.content = none := by
    cases hj : json_loads r.content with
    | none => rfl
    | some v => rw [hj] at h2; simp at h2
  simp [evaluate_llm_judge, call_llm, h1, hn]

/-- Witness for C6: a non-JSON judge reply containing "TRUE" passes via the
substring heuristic and is returned trimmed as the reason. -/
theorem judge_non_json_fallback_witness :
    evaluate_llm_judge envTrue 0 "some output" none "kimi-k2p5" =
      (1, Except.ok (true, "it is TRUE indeed")) := by
  have h := judge_non_json_fallback envTrue 0 "some output" none "kimi-k2p5"
    ⟨"it is TRUE indeed", 3, 4, 5⟩ rfl (by decide)
  rw [h]
  rfl

/-- C2: the fixed short-circuit order of `evaluate_completion`: (1) an
output that strips to nothing fails immediately with an empty details dict
and neither the rule nor the judge runs (the call counter is unchanged and
the result does not depend on the environment); (2) a rule failure returns
the rule's reason and never invokes the judge (call counter unchanged);
(3) when the rule passes and the judge is enabled, the judge runs exactly
once and a rejection yields failure with the judge's reason (an escaping
judge exception becomes a bare-error record); (4) when the rule passes and
the judge is disabled, the result is success. -/
theorem evaluate_completion_order (env : RmEnv) (calls : Nat) (output : String)
    (rt : String) (rv : Option String) (jen : Bool) (jp : Option String) (model : String) :
    (pystrip output = "" →
      evaluate_completion env calls output rt rv jen jp model =
        (calls, false, EvalResult.result false (some "LLM output was empty") none none)) ∧
    (pystrip output ≠ "" → (evaluate_rule env.regexSearch rt rv output).1 = false →
      evaluate_completion env calls output rt rv jen jp model =
        (calls, false, EvalResult.result false (some (evaluate_rule env.regexSearch rt rv output).2)
          (some ⟨some false, some (evaluate_rule env.regexSearch rt rv output).2, none, none⟩)
          none)) ∧
    (pystrip output ≠ "" → (evaluate_rule env.regexSearch rt rv output).1 = true → jen = true →
      (evaluate_llm_judge env calls output jp model).1 = calls + 1 ∧
      evaluate_completion env calls output rt rv jen jp model =
        ((evaluate_llm_judge env calls output jp model).1,
          match (evaluate_llm_judge env calls output jp model).2 with
          | Except.error e => (false, EvalResult.crash e)
          | Except.ok lp =>
            if lp.1 then
              (true, EvalResult.result true none
                (some ⟨some true, some (evaluate_rule env.regexSearch rt rv output).2,
                  some lp.1, some lp.2⟩) none)
            else
              (false, EvalResult.result false (some lp.2)
                (some ⟨some true, some (evaluate_rule env.regexSearch rt rv output).2,
                  some lp.1, some lp.2⟩) none))) ∧
    (pystrip output ≠ "" → (evaluate_rule env.regexSearch rt rv output).1 = true → jen = false →
      evaluate_completion env calls output rt rv jen jp model =
        (calls, true, EvalResult.result true none
          (some ⟨some true, some (evaluate_rule env.regexSearch rt rv output).2, none, none⟩)
          none)) := by
  refine ⟨?_, ?_, ?_, ?_⟩
  · intro h0
    simp [evaluate_completion, h0]
  · intro h0 h1
    simp [evaluate_completion, h0, h1]
  · intro h0 h1 h2
    constructor
    · simp [evaluate_llm_judge, call_llm]
    · subst h2
      cases hj : (evaluate_llm_judge env calls output jp model).2 with
      | error e => simp [evaluate_completion, h0, h1, hj]
      | ok lp =>
        by_cases hp : lp.1 = true
        · simp [evaluate_completion, h0, h1, hj, hp]
        · simp only [Bool.not_eq_true] at hp
          simp [evaluate_completion, h0, h1, hj, hp]
  · intro h0 h1 h2
    subst h2
    simp [evaluate_completion, h0, h1]

/-- Witness for C2 (rule-failure branch): with the judge enabled, a failing
"contains" rule short-circuits — the call counter stays at 7 and the judge
is never consulted. -/
theorem evaluate_completion_order_witness :
    evaluate_completion envTrue 7 "hello" "contains" (some "x") true none "kimi-k2p5" =
      (7, false, EvalResult.result false (some "Rule 'contains' failed")
        (some ⟨some false, some "Rule 'contains' failed", none, none⟩) none) := by
  have h := (evaluate_completion_order envTrue 7 "hello" "contains" (some "x") true none
    "kimi-k2p5").2.1 (by decide) (by decide)
  rw [h]
  rfl

/-- The helper `resolveExtracted` only succeeds with a context that does not strip to
nothing. -/
theorem resolveExtracted_ok (n m c e0 x : String)
    (h : resolveExtracted n m c e0 = Except.ok x) : pystrip x ≠ "" := by
  simp only [resolveExtracted] at h
  by_cases hc : pystrip (if m ≠ "full" ∧ pystrip e0 = "" then pystrip c else e0) = ""
  · rw [if_pos hc] at h; cases h
  · rw [if_neg hc] at h
    injection h with h2
    exact h2 ▸ hc

/-- C4: (1) whenever the configured extraction mode strips to nothing, the
attempt resolves to the stripped full raw output, or to the fatal
extraction error when that too strips to nothing (for mode "full" the
extracted text IS the raw output, so both collapse to the same outcome);
(2) a successful `_execute_single_step` never returns a context that
strips to nothing. -/
theorem extraction_empty_fallback (name mode content extracted0 : String) :
    (pystrip extracted0 = "" → (mode = "full" → extracted0 = content) →
      resolveExtracted name mode content extracted0 =
        (if pystrip content = "" then
          Except.error ("Context extraction failed for step '" ++ name ++ "' (mode=" ++
            mode ++ ")")
        else Except.ok (pystrip content))) ∧
    (∀ env st step srId att ctx fb st2 out extr p ev,
      _execute_single_step env st step srId att ctx fb =
        (st2, Except.ok (out, extr, p, ev)) → pystrip extr ≠ "") := by
  constructor
  · intro h1 h2
    simp only [resolveExtracted]
    by_cases hm : mode = "full"
    · have hce := h2 hm
      subst hm
      subst hce
      have hinner : (if ("full" : String) ≠ "full" ∧ pystrip extracted0 = ""
          then pystrip extracted0 else extracted0) = extracted0 :=
        if_neg fun hand => hand.1 rfl
      rw [hinner, if_pos h1, if_pos h1]
    · have hinner : (if mode ≠ "full" ∧ pystrip extracted0 = ""
          then pystrip content else extracted0) = pystrip content :=
        if_pos ⟨hm, h1⟩
      rw [hinner, pystrip_idem]
  · intro env st step srId att ctx fb st2 out extr p ev h
    simp only [_execute_single_step] at h
    repeat' split at h
    all_goals rw [Prod.mk.injEq] at h
    any_goals exact Except.noConfusion h.2
    all_goals obtain ⟨-, hB⟩ := h
    all_goals simp only [Except.ok.injEq, Prod.mk.injEq] at hB
    all_goals obtain ⟨-, hx2, -, -⟩ := hB
    all_goals rw [← hx2]
    all_goals apply resolveExtracted_ok
    all_goals assumption

/-- Log counting is unaffected by StepRun-row updates. -/
theorem countLogsFor_updateStepRun (st : ExecSt) (sid : String) (f : StepRunR → StepRunR)
    (sid' : String) :
    countLogsFor { st with db := updateStepRun st.db sid f } sid' = countLogsFor st sid' := rfl

/-- A single step attempt appends at most one log row (for any StepRun id). -/
theorem exec_single_step_logs (env : RmEnv) (st : ExecSt) (step : WorkflowStepR)
    (srId : String) (att : Nat) (ctx fb : Option String) (sid' : String) :
    countLogsFor (_execute_single_step env st step srId att ctx fb).1 sid' ≤
      countLogsFor st sid' + 1 := by
  simp only [_execute_single_step]
  repeat' split
  all_goals
    first
    | exact Nat.le_succ_of_le (Nat.le_refl _)
    | (simp only [countLogsFor, List.filter_append, List.length_append]
       exact Nat.add_le_add_left (List.length_filter_le _ _) _)

/-- The retry loop with `rem` allowed iterations appends at most `rem` log
rows (for any StepRun id). -/
theorem runStepAttempts_logs (env : RmEnv) (step : WorkflowStepR) (srId : String)
    (ctx : Option String) (sid' : String) :
    ∀ rem rc fr st, countLogsFor (runStepAttempts env step srId ctx rem rc fr st).1 sid' ≤
      countLogsFor st sid' + rem := by
  intro rem
  induction rem with
  | zero => intro rc fr st; exact Nat.le_refl _
  | succ rem ih =>
    intro rc fr st
    simp only [runStepAttempts]
    repeat' split
    all_goals
      first
      | (rw [countLogsFor_updateStepRun]
         refine Nat.le_trans (exec_single_step_logs _ _ _ _ _ _ _ _) ?_
         rw [countLogsFor_updateStepRun]
         omega)
      | (refine Nat.le_trans (ih _ _ _) ?_
         rw [countLogsFor_updateStepRun]
         refine Nat.le_trans (Nat.add_le_add_right (exec_single_step_logs _ _ _ _ _ _ _ _) rem) ?_
         rw [countLogsFor_updateStepRun]
         omega)

/-- C1: the retry loop of `run_workflow` enters a step's loop with
`retry_limit + 1` allowed iterations (attempt counter 0, empty failure
reason, exactly as `runSteps` invokes it), performs at most that many
attempts, and each attempt appends at most one LLMLog row, so at most
`retry_limit + 1` log rows are recorded for the step's StepRun within the
run. -/
theorem retry_loop_log_bound (env : RmEnv) (step : WorkflowStepR) (srId : String)
    (ctx : Option String) (st : ExecSt) :
    countLogsFor (runStepAttempts env step srId ctx (step.retry_limit + 1) 0 "" st).1 srId ≤
      countLogsFor st srId + (step.retry_limit + 1) :=
  runStepAttempts_logs env step srId ctx srId (step.retry_limit + 1) 0 "" st

/-- Witness for C4: a "code_only" extraction that came back empty resolves
to the stripped raw output. -/
theorem extraction_empty_fallback_witness :
    resolveExtracted "s" "code_only" "hi" "" = Except.ok "hi" := by
  have h := (extraction_empty_fallback "s" "code_only" "hi" "").1 (by decide)
    (fun hf => absurd hf (by decide))
  rw [h, if_neg (by decide)]
  rfl

/-- A successful scan returns a nonempty span accepted by `json.loads`. -/
theorem scanJson_some (sc ec : Char) :
    ∀ l pre d out, scanJson sc ec pre d l = some out →
      out ≠ [] ∧ jsonOk (String.mk out) = true := by
  intro l
  induction l with
  | nil => intro pre d out h; cases h
  | cons c rest ih =>
    intro pre d out h
    simp only [scanJson] at h
    split at h
    · exact ih _ _ _ h
    · split at h
      · split at h
        · split at h
          · cases h; exact ⟨by simp, by assumption⟩
          · exact ih _ _ _ h
        · exact ih _ _ _ h
      · exact ih _ _ _ h

/-- The scan finds a span iff some depth-zero closing position of the
remaining input — relative to the accumulated prefix and running depth —
yields a span accepted by `json.loads`. -/
theorem scanJson_isSome_iff (sc ec : Char) (hne : sc ≠ ec) :
    ∀ l pre d, (scanJson sc ec pre d l).isSome = true ↔
      ∃ n, n < l.length ∧ l[n]? = some ec ∧
        d + jdepth sc ec (l.take (n + 1)) = 0 ∧
        jsonOk (String.mk (pre ++ l.take (n + 1))) = true := by
  intro l
  induction l with
  | nil =>
    intro pre d
    simp [scanJson]
  | cons c rest ih =>
    intro pre d
    by_cases hc : c = sc
    · subst hc
      have hl : scanJson c ec pre d (c :: rest) = scanJson c ec (pre ++ [c]) (d + 1) rest := by
        simp [scanJson]
      rw [hl, ih]
      constructor
      · rintro ⟨n, hn, hget, hdep, hok⟩
        refine ⟨n + 1, by simpa using Nat.succ_lt_succ hn, by simpa using hget, ?_, ?_⟩
        · simp [List.take_succ_cons, jdepth]
          omega
        · simpa [List.append_assoc] using hok
      · rintro ⟨m, hm, hget, hdep, hok⟩
        cases m with
        | zero =>
          exfalso
          simp only [List.getElem?_cons_zero, Option.some.injEq] at hget
          exact hne hget
        | succ n =>
          refine ⟨n, by simpa using Nat.lt_of_succ_lt_succ hm, by simpa using hget, ?_, ?_⟩
          · simp [List.take_succ_cons, jdepth] at hdep
            omega
          · simpa [List.append_assoc] using hok
    · by_cases hc2 : c = ec
      · subst hc2
        have hne2 : ¬ c = sc := hc
        have hl : scanJson sc c pre d (c :: rest) =
            if d - 1 = 0 then
              (if jsonOk (String.mk (pre ++ [c])) then some (pre ++ [c])
               else scanJson sc c (pre ++ [c]) (d - 1) rest)
            else scanJson sc c (pre ++ [c]) (d - 1) rest := by
          simp [scanJson, hne2]
        by_cases hd : d - 1 = 0
        · by_cases hok0 : jsonOk (String.mk (pre ++ [c])) = true
          · rw [hl, if_pos hd, if_pos hok0]
            simp only [Option.isSome_some, true_iff]
            refine ⟨0, by simp, by simp, ?_, ?_⟩
            · simp [jdepth, hne2]
              omega
            · simpa using hok0
          · rw [hl, if_pos hd, if_neg hok0, ih]
            constructor
            · rintro ⟨n, hn, hget, hdep, hok⟩
              refine ⟨n + 1, by simpa using Nat.succ_lt_succ hn, by simpa using hget, ?_, ?_⟩
              · simp [List.take_succ_cons, jdepth, hne2]
                omega
              · simpa [List.append_assoc] using hok
            · rintro ⟨m, hm, hget, hdep, hok⟩
              cases m with
              | zero =>
                exfalso
                simp only [List.take_succ_cons, List.take_zero] at hok
                exact hok0 (by simpa using hok)
              | succ n =>
                refine ⟨n, by simpa using Nat.lt_of_succ_lt_succ hm, by simpa using hget, ?_, ?_⟩
                · simp [List.take_succ_cons, jdepth, hne2] at hdep
                  omega
                · simpa [List.append_assoc] using hok
        · rw [hl, if_neg hd, ih]
          constructor
          · rintro ⟨n, hn, hget, hdep, hok⟩
            refine ⟨n + 1, by simpa using Nat.succ_lt_succ hn, by simpa using hget, ?_, ?_⟩
            · simp [List.take_succ_cons, jdepth, hne2]
              omega
            · simpa [List.append_assoc] using hok
          · rintro ⟨m, hm, hget, hdep, hok⟩
            cases m with
            | zero =>
              exfalso
              simp [List.take_succ_cons, List.take_zero, jdepth, hne2] at hdep
              omega
            | succ n =>
              refine ⟨n, by simpa using Nat.lt_of_succ_lt_succ hm, by simpa using hget, ?_, ?_⟩
              · simp [List.take_succ_cons, jdepth, hne2] at hdep
                omega
              · simpa [List.append_assoc] using hok
      · have hl : scanJson sc ec pre d (c :: rest) = scanJson sc ec (pre ++ [c]) d rest := by
          simp [scanJson, hc, hc2]
        rw [hl, ih]
        constructor
        · rintro ⟨n, hn, hget, hdep, hok⟩
          refine ⟨n + 1, by simpa using Nat.succ_lt_succ hn, by simpa using hget, ?_, ?_⟩
          · simp [List.take_succ_cons, jdepth, hc, hc2]
            omega
          · simpa [List.append_assoc] using hok
        · rintro ⟨m, hm, hget, hdep, hok⟩
          cases m with
          | zero =>
            exfalso
            simp only [List.getElem?_cons_zero, Option.some.injEq] at hget
            exact hc2 hget
          | succ n =>
            refine ⟨n, by simpa using Nat.lt_of_succ_lt_succ hm, by simpa using hget, ?_, ?_⟩
            · simp [List.take_succ_cons, jdepth, hc, hc2] at hdep
              omega
            · simpa [List.append_assoc] using hok

/-- A candidate exists iff the scan (started as `extract_json` starts it)
succeeds. -/
theorem validCandidateFrom_iff_isSome (sc ec : Char) (hne : sc ≠ ec) (l : List Char) :
    validCandidateFrom sc ec l ↔ (scanJson sc ec [] 0 l).isSome = true := by
  rw [scanJson_isSome_iff sc ec hne l [] 0]
  unfold validCandidateFrom
  simp

/-- C3 (counterexample to the claim as stated): the input "\x7b,\x7b\x7d"
contains the balanced span "\x7b\x7d", which is valid JSON, yet
`extract_json` returns the empty string (which does not parse) — the scan
only ever considers spans starting at the FIRST occurrence of the opening
character. -/
theorem extract_json_counterexample :
    balancedValidSpanB '{' '}' "\x7b,\x7b\x7d" = true ∧
    extract_json "\x7b,\x7b\x7d" = "" ∧
    jsonOk (extract_json "\x7b,\x7b\x7d") = false := by
  refine ⟨by decide, by decide, by decide⟩

/-- C3 (amended): `extract_json` returns the empty string iff no
depth-balanced span starting at the first occurrence of `\x7b` (tried
first) and none starting at the first `[` parses as JSON; whenever it
returns a nonempty string, that string parses as JSON.  (Spans starting at
later occurrences of the opening character are never considered.) -/
theorem extract_json_first_span (text : String) :
    (extract_json text = "" ↔
      (¬ validCandidateFrom '{' '}' (text.toList.dropWhile fun c => !(c == '{')) ∧
       ¬ validCandidateFrom '[' ']' (text.toList.dropWhile fun c => !(c == '[')))) ∧
    (extract_json text ≠ "" → jsonOk (extract_json text) = true) := by
  have hb : ('{' : Char) ≠ '}' := by decide
  have hk : ('[' : Char) ≠ ']' := by decide
  constructor
  · rw [validCandidateFrom_iff_isSome _ _ hb, validCandidateFrom_iff_isSome _ _ hk]
    unfold extract_json
    cases h1 : scanJson '{' '}' [] 0 (text.toList.dropWhile fun c => !(c == '{')) with
    | some c =>
      have hne := (scanJson_some _ _ _ _ _ _ h1).1
      simp only [h1, Option.isSome_some]
      constructor
      · intro hmk
        exact absurd (by simpa [String.ext_iff] using hmk) hne
      · rintro ⟨h, -⟩
        exact (h trivial).elim
    | none =>
      simp only [h1, Option.isSome_none]
      cases h2 : scanJson '[' ']' [] 0 (text.toList.dropWhile fun c => !(c == '[')) with
      | some c =>
        have hne := (scanJson_some _ _ _ _ _ _ h2).1
        simp only [h2, Option.isSome_some]
        constructor
        · intro hmk
          exact absurd (by simpa [String.ext_iff] using hmk) hne
        · rintro ⟨-, h⟩
          exact (h trivial).elim
      | none =>
        simp [h2]
  · intro hne
    unfold extract_json at hne ⊢
    cases h1 : scanJson '{' '}' [] 0 (text.toList.dropWhile fun c => !(c == '{')) with
    | some c =>
      simpa using (scanJson_some _ _ _ _ _ _ h1).2
    | none =>
      rw [h1] at hne
      cases h2 : scanJson '[' ']' [] 0 (text.toList.dropWhile fun c => !(c == '[')) with
      | some c =>
        simpa using (scanJson_some _ _ _ _ _ _ h2).2
      | none =>
        rw [h2] at hne
        simp at hne

/-- Witness for C3 (amended): on input with a valid JSON object after some
prose, `extract_json` returns a string accepted by `json.loads`. -/
theorem extract_json_first_span_witness :
    extract_json "a \x7b\"b\":2\x7d" ≠ "" ∧
    jsonOk (extract_json "a \x7b\"b\":2\x7d") = true :=
  ⟨by decide, (extract_json_first_span "a \x7b\"b\":2\x7d").2 (by decide)⟩

/-- Occurrence characterization of `hasTicks`. -/
theorem hasTicks_iff (l : List Char) :
    hasTicks l = true ↔ ∃ a b, l = a ++ ticks ++ b := by
  induction l with
  | nil =>
    simp only [hasTicks, Bool.false_eq_true, false_iff, not_exists]
    intro a b h
    have := congrArg List.length h
    simp [ticks] at this
    omega
  | cons c rest ih =>
    simp only [hasTicks, Bool.or_eq_true, ih]
    constructor
    · rintro (htp | ⟨a, b, h⟩)
      · refine ⟨[], (c :: rest).drop 3, ?_⟩
        have h3 : (c :: rest).take 3 = ticks := by simpa [tickPre] using htp
        rw [List.nil_append, ← h3, List.take_append_drop]
      · exact ⟨c :: a, b, by simp [h]⟩
    · rintro ⟨a, b, h⟩
      cases a with
      | nil =>
        left
        simp only [List.nil_append] at h
        simp [tickPre, h, ticks, List.take_succ_cons]
      | cons x a' =>
        right
        refine ⟨a', b, ?_⟩
        simpa using congrArg List.tail h

/-- If a list already holds a fence, so does any right-extension. -/
theorem hasTicks_append_left_false (b x : List Char) (h : hasTicks (b ++ x) = false) :
    hasTicks b = false := by
  rw [Bool.eq_false_iff] at h ⊢
  intro hb
  apply h
  rw [hasTicks_iff] at hb ⊢
  obtain ⟨a, b', hdec⟩ := hb
  exact ⟨a, b' ++ x, by simp [hdec]⟩

theorem hasTicks_reverse_of (l : List Char) (h : hasTicks l = true) :
    hasTicks l.reverse = true := by
  rw [hasTicks_iff] at h ⊢
  obtain ⟨a, b, hdec⟩ := h
  refine ⟨b.reverse, a.reverse, ?_⟩
  rw [hdec]
  simp [List.reverse_append, show ticks.reverse = ticks from by decide, List.append_assoc]

theorem hasTicks_reverse (l : List Char) : hasTicks l.reverse = hasTicks l := by
  by_cases h : hasTicks l = true
  · rw [h, hasTicks_reverse_of l h]
  · have h2 : ¬ hasTicks l.reverse = true := fun hr => h (by simpa using hasTicks_reverse_of _ hr)
    simp only [Bool.not_eq_true] at h h2
    rw [h, h2]

theorem hasTicks_dropWhile (p : Char → Bool) (l : List Char)
    (h : hasTicks (l.dropWhile p) = true) : hasTicks l = true := by
  induction l with
  | nil => simpa using h
  | cons c rest ih =>
    by_cases hp : p c
    · rw [List.dropWhile_cons_of_pos hp] at h
      simp [hasTicks, ih h]
    · rwa [List.dropWhile_cons_of_neg hp] at h

/-- Stripping cannot create a fence. -/
theorem hasTicks_stripList (l : List Char) (h : hasTicks (stripList l) = true) :
    hasTicks l = true := by
  unfold stripList at h
  rw [hasTicks_reverse] at h
  have h2 := hasTicks_dropWhile _ _ h
  rw [hasTicks_reverse] at h2
  exact hasTicks_dropWhile _ _ h2

/-- The first three characters after `x` are unaffected by what follows two
leading backticks of the tail. -/
theorem tickPre_two_ticks_indep (x : Char) (u a b : List Char) :
    tickPre (x :: (u ++ tick :: tick :: a)) = tickPre (x :: (u ++ tick :: tick :: b)) := by
  cases u with
  | nil => simp [tickPre, ticks, List.take_succ_cons]
  | cons d u' =>
    cases u' with
    | nil => simp [tickPre, ticks, List.take_succ_cons]
    | cons e u'' => simp [tickPre, ticks, List.take_succ_cons]

theorem tickPre_cons3_iff (a b c : Char) (r : List Char) :
    tickPre (a :: b :: c :: r) = true ↔ a = tick ∧ b = tick ∧ c = tick := by
  simp [tickPre, ticks, List.take_succ_cons]

/-- A newline separator keeps concatenations fence-free. -/
theorem hasTicks_sep (x y : List Char) (hx : hasTicks x = false) (hy : hasTicks y = false) :
    hasTicks (x ++ '\n' :: y) = false := by
  induction x with
  | nil =>
    simp only [List.nil_append]
    have h1 : tickPre ('\n' :: y) = false := by
      rw [Bool.eq_false_iff]
      intro hcontra
      cases y with
      | nil => simp [tickPre, ticks, List.take_succ_cons] at hcontra
      | cons z y' =>
        cases y' with
        | nil => simp [tickPre, ticks, List.take_succ_cons] at hcontra
        | cons w y'' =>
          exact absurd ((tickPre_cons3_iff _ _ _ _).1 hcontra).1 (by decide)
    simp [hasTicks, h1, hy]
  | cons c x' ih =>
    simp only [hasTicks, Bool.or_eq_false_iff] at hx
    obtain ⟨htp, hx'⟩ := hx
    have hrest : hasTicks (x' ++ '\n' :: y) = false := ih hx'
    simp only [List.cons_append, hasTicks, Bool.or_eq_false_iff]
    refine ⟨?_, hrest⟩
    rw [Bool.eq_false_iff]
    intro hcontra
    cases x' with
    | nil =>
      cases y with
      | nil => simp [tickPre, ticks, List.take_succ_cons] at hcontra
      | cons z y' =>
        exact absurd ((tickPre_cons3_iff _ _ _ _).1 hcontra).2.1 (by decide)
    | cons d x'' =>
      cases x'' with
      | nil =>
        exact absurd ((tickPre_cons3_iff _ _ _ _).1 hcontra).2.2 (by decide)
      | cons e x''' =>
        obtain ⟨ha, hb2, hc3⟩ := (tickPre_cons3_iff _ _ _ _).1 hcontra
        have htrue : tickPre (c :: d :: e :: x''') = true :=
          (tickPre_cons3_iff _ _ _ _).2 ⟨ha, hb2, hc3⟩
        rw [htrue] at htp
        cases htp

/-- The blank-line join of fence-free blocks is fence-free. -/
theorem hasTicks_joinBlocks (bs : List (List Char)) (h : ∀ b ∈ bs, hasTicks b = false) :
    hasTicks (joinBlocks bs) = false := by
  induction bs with
  | nil => rfl
  | cons b bs ih =>
    cases bs with
    | nil => exact h b (by simp [joinBlocks])
    | cons b2 bs' =>
      have hj : hasTicks (joinBlocks (b2 :: bs')) = false :=
        ih fun x hx => h x (by simp [hx])
      have hb : hasTicks b = false := h b (by simp)
      rw [joinBlocks]
      apply hasTicks_sep _ _ hb
      have h1 : tickPre ('\n' :: joinBlocks (b2 :: bs')) = false := by
        rw [Bool.eq_false_iff]
        intro hcontra
        cases hj2 : joinBlocks (b2 :: bs') with
        | nil => rw [hj2] at hcontra; simp [tickPre, ticks, List.take_succ_cons] at hcontra
        | cons z rest =>
          rw [hj2] at hcontra
          cases rest with
          | nil => simp [tickPre, ticks, List.take_succ_cons] at hcontra
          | cons w rest' =>
            exact absurd ((tickPre_cons3_iff _ _ _ _).1 hcontra).1 (by decide)
      simp [hasTicks, h1, hj]

/-- Soundness of `splitAtTicks`: the result splits the input at a fence and
the content before it is fence-free (even jointly with two more leading
backticks of the fence). -/
theorem splitAtTicks_eq (m : List Char) :
    ∀ c r, splitAtTicks m = some (c, r) →
      m = c ++ ticks ++ r ∧ hasTicks (c ++ [tick, tick]) = false := by
  induction m with
  | nil => intro c r h; cases h
  | cons x m' ih =>
    intro c r h
    simp only [splitAtTicks] at h
    split at h
    · rename_i htp
      cases h
      constructor
      · have h3 : (x :: m').take 3 = ticks := by simpa [tickPre] using htp
        rw [List.nil_append, ← h3, List.take_append_drop]
      · decide
    · rename_i htp
      cases hsp : splitAtTicks m' with
      | none => rw [hsp] at h; cases h
      | some p =>
        rw [hsp] at h
        obtain ⟨h1, h2⟩ := ih p.1 p.2 (by rw [hsp])
        cases h
        constructor
        · rw [show (x :: p.1) ++ ticks ++ p.2 = x :: (p.1 ++ ticks ++ p.2) from by simp, ← h1]
        · rw [show (x :: p.1) ++ [tick, tick] = x :: (p.1 ++ [tick, tick]) from by simp]
          simp only [hasTicks, Bool.or_eq_false_iff]
          refine ⟨?_, h2⟩
          rw [Bool.eq_false_iff]
          intro hcontra
          have hind := tickPre_two_ticks_indep x p.1 ([] : List Char) (tick :: p.2)
          rw [show p.1 ++ tick :: tick :: ([] : List Char) = p.1 ++ [tick, tick] from rfl,
            show p.1 ++ tick :: tick :: (tick :: p.2) = p.1 ++ ticks ++ p.2 from by
              simp [ticks]] at hind
          rw [hcontra] at hind
          rw [show x :: (p.1 ++ ticks ++ p.2) = x :: m' from by rw [← h1]] at hind
          rw [← hind] at htp
          exact htp rfl

/-- Computation of `splitAtTicks` on a fence-free prefix followed by a
fence. -/
theorem splitAtTicks_append (c r : List Char) (h : hasTicks (c ++ [tick, tick]) = false) :
    splitAtTicks (c ++ ticks ++ r) = some (c, r) := by
  induction c with
  | nil =>
    rw [show ([] : List Char) ++ ticks ++ r = tick :: tick :: tick :: r from by simp [ticks]]
    simp only [splitAtTicks]
    rw [if_pos (by simp [tickPre, ticks, List.take_succ_cons])]
    simp
  | cons x c' ih =>
    have hx : hasTicks ((x :: c') ++ [tick, tick]) = false := h
    rw [show (x :: c') ++ [tick, tick] = x :: (c' ++ [tick, tick]) from by simp] at hx
    simp only [hasTicks, Bool.or_eq_false_iff] at hx
    obtain ⟨htp_pair, hsub⟩ := hx
    have htp : tickPre (x :: (c' ++ (ticks ++ r))) = false := by
      have hind := tickPre_two_ticks_indep x c' ([] : List Char) (tick :: r)
      rw [show c' ++ tick :: tick :: ([] : List Char) = c' ++ [tick, tick] from rfl,
        show c' ++ tick :: tick :: (tick :: r) = c' ++ (ticks ++ r) from by simp [ticks]] at hind
      rw [← hind]
      exact htp_pair
    rw [show (x :: c') ++ ticks ++ r = x :: (c' ++ ticks ++ r) from by simp]
    simp only [splitAtTicks]
    rw [if_neg (by simp [htp]), ih hsub]
    rfl

/-- A match of the fence regex at a position is produced by
`splitAtTicks`, so its captured group is fence-free. -/
theorem matchFenceAt_some (l : List Char) (b r : List Char)
    (h : matchFenceAt l = some (b, r)) : hasTicks (b ++ [tick, tick]) = false := by
  simp only [matchFenceAt] at h
  split at h
  · exact (splitAtTicks_eq _ _ _ h).2
  · cases h

/-- Every block `re.findall` produces is fence-free. -/
theorem findBlocksF_noTicks : ∀ fuel l b, b ∈ findBlocksF fuel l → hasTicks b = false := by
  intro fuel
  induction fuel with
  | zero =>
    intro l b hb
    cases l with
    | nil => simp [findBlocksF] at hb
    | cons c rest => simp [findBlocksF] at hb
  | succ fuel ih =>
    intro l b hb
    cases l with
    | nil => simp [findBlocksF] at hb
    | cons c rest =>
      simp only [findBlocksF] at hb
      cases hmf : matchFenceAt (c :: rest) with
      | none => rw [hmf] at hb; exact ih _ _ hb
      | some p =>
        rw [hmf] at hb
        simp only [List.mem_cons] at hb
        rcases hb with rfl | hb
        · exact hasTicks_append_left_false _ _ (matchFenceAt_some _ _ _ (by rw [hmf]))
        · exact ih _ _ hb

/-- Appending helper for `dropWhile`. -/
theorem dropWhile_append_custom (p : Char → Bool) (l1 l2 : List Char) :
    (l1 ++ l2).dropWhile p =
      if (l1.dropWhile p).isEmpty then l2.dropWhile p else l1.dropWhile p ++ l2 := by
  induction l1 with
  | nil => simp
  | cons c t ih =>
    by_cases h : p c
    · simpa [List.dropWhile_cons, h] using ih
    · simp [List.dropWhile_cons, h]

/-- Stripping absorbs a trailing whitespace character. -/
theorem stripList_append_ws (l : List Char) (c : Char) (hc : pyIsSpace c = true) :
    stripList (l ++ [c]) = stripList l := by
  unfold stripList
  rw [dropWhile_append_custom]
  by_cases h : (l.dropWhile pyIsSpace).isEmpty
  · rw [if_pos h]
    have h1 : List.dropWhile pyIsSpace [c] = [] := by
      rw [List.dropWhile_cons_of_pos hc]
      rfl
    rw [h1]
    rw [List.isEmpty_iff] at h
    rw [h]
  · rw [if_neg h]
    rw [List.reverse_append]
    rw [show ([c] : List Char).reverse = [c] from rfl]
    rw [show ([c] : List Char) ++ (l.dropWhile pyIsSpace).reverse =
      c :: (l.dropWhile pyIsSpace).reverse from rfl]
    rw [List.dropWhile_cons_of_pos hc]

/-- On a canonical fence wrapped around fence-free content, `re.findall`
finds exactly one block: the content plus its trailing newline. -/
theorem findBlocks_wrap (el : List Char) (hET : hasTicks el = false) (fuel : Nat) :
    findBlocksF (fuel + 1) (tick :: tick :: tick :: '\n' :: (el ++ '\n' :: ticks)) =
      [el ++ ['\n']] := by
  have hsep : hasTicks ((el ++ ['\n']) ++ [tick, tick]) = false := by
    have h0 : hasTicks (el ++ '\n' :: [tick, tick]) = false :=
      hasTicks_sep _ _ hET (by decide)
    rw [show (el ++ ['\n']) ++ [tick, tick] = el ++ '\n' :: [tick, tick] from by simp]
    exact h0
  have hsp := splitAtTicks_append (el ++ ['\n']) [] hsep
  rw [show (el ++ ['\n']) ++ ticks ++ ([] : List Char) = el ++ '\n' :: ticks from by
    simp] at hsp
  have hm : matchFenceAt (tick :: tick :: tick :: '\n' :: (el ++ '\n' :: ticks)) =
      some (el ++ ['\n'], []) := by
    have hdef : matchFenceAt (tick :: tick :: tick :: '\n' :: (el ++ '\n' :: ticks)) =
        splitAtTicks (el ++ '\n' :: ticks) := rfl
    rw [hdef, hsp]
  simp only [findBlocksF, hm]

/-- C8 (counterexample to the claim as stated): the input
"`````````x```" extracts to the nonempty string "\n\n" (two empty blocks,
each stripped, joined by a blank line), but re-extracting its fence-wrapped
form yields "" — re-extraction strips the content, so an output with
leading/trailing whitespace does not round-trip. -/
theorem code_blocks_counterexample :
    extract_code_blocks "`````````x```" = "\n\n" ∧
    ("\n\n" : String) ≠ "" ∧
    extract_code_blocks (fenceWrap "\n\n") = "" := by
  refine ⟨by decide, by decide, by decide⟩

/-- C8 (amended): re-extracting the fence-wrapped output of code-block
extraction returns the output STRIPPED of leading/trailing whitespace —
the round-trip is the identity exactly when the output has none (e.g.
whenever every extracted block strips to nonempty content). -/
theorem code_blocks_roundtrip (text : String) :
    extract_code_blocks (fenceWrap (extract_code_blocks text)) =
      pystrip (extract_code_blocks text) := by
  have hETicks : hasTicks (joinBlocks
      ((findBlocksF text.toList.length text.toList).map stripList)) = false := by
    apply hasTicks_joinBlocks
    intro b hb
    simp only [List.mem_map] at hb
    obtain ⟨b0, hb0, hbs⟩ := hb
    have h0 := findBlocksF_noTicks _ _ _ hb0
    rw [← hbs]
    rw [Bool.eq_false_iff]
    intro ht
    rw [Bool.eq_false_iff] at h0
    exact h0 (hasTicks_stripList _ ht)
  have hE : extract_code_blocks text =
      String.mk (joinBlocks ((findBlocksF text.toList.length text.toList).map stripList)) :=
    rfl
  set el := joinBlocks ((findBlocksF text.toList.length text.toList).map stripList) with hel
  have hwrap : (fenceWrap (String.mk el)).toList =
      tick :: tick :: tick :: '\n' :: (el ++ '\n' :: ticks) := by
    show ("```\n" ++ String.mk el ++ "\n```").data = _
    rw [String.data_append, String.data_append]
    show "```\n".data ++ el ++ "\n```".data = _
    rw [show "```\n".data = [tick, tick, tick, '\n'] from by decide,
      show "\n```".data = '\n' :: ticks from by decide]
    simp
  rw [hE]
  show String.mk (joinBlocks ((findBlocksF (fenceWrap (String.mk el)).toList.length
    (fenceWrap (String.mk el)).toList).map stripList)) = pystrip (String.mk el)
  rw [hwrap]
  rw [show (tick :: tick :: tick :: '\n' :: (el ++ '\n' :: ticks)).length =
    (('\n' :: (el ++ '\n' :: ticks)).length + 2) + 1 from by simp]
  rw [findBlocks_wrap el hETicks]
  show String.mk (stripList (el ++ ['\n'])) = pystrip (String.mk el)
  rw [stripList_append_ws el '\n' (by decide)]
  rfl
